import Mathlib

/-!
Verification of the Toolkit kernel conventions layer and the vendored
`goog.ui.ImagelessButtonRenderer` widget code.

The kernel itself (`g-component.html`) is not part of the repository; only its
documentation (`toolkit-kernel-explainer.md`) is.  The kernel definitions below
are therefore modelled from the specification's own description of the
composition, reflection, event-binding, change-notification and inheritance
behaviour.  The renderer definitions are translated directly from
`imagelessbuttonrenderer.js`.
-/

/-! ## Generic association-list helpers (string-keyed records, heaps) -/

/-- Lookup in an association list by key (models JS property access on a
dictionary-like object). -/
def alookup {κ α : Type} [DecidableEq κ] : List (κ × α) → κ → Option α
  | [], _ => none
  | (k, v) :: rest, n => if k = n then some v else alookup rest n

/-- Update-or-insert in an association list (models JS property assignment). -/
def aset {κ α : Type} [DecidableEq κ] : List (κ × α) → κ → α → List (κ × α)
  | [], n, v => [(n, v)]
  | (k, w) :: rest, n, v =>
    if k = n then (k, v) :: rest else (k, w) :: aset rest n v

theorem alookup_aset_self {κ α : Type} [DecidableEq κ]
    (l : List (κ × α)) (n : κ) (v : α) : alookup (aset l n v) n = some v := by
  induction l with
  | nil => simp [aset, alookup]
  | cons hd tl ih =>
    obtain ⟨k, w⟩ := hd
    by_cases hk : k = n
    · simp [aset, alookup, hk]
    · simp [aset, alookup, hk, ih]

theorem alookup_aset_ne {κ α : Type} [DecidableEq κ]
    (l : List (κ × α)) (n m : κ) (v : α) (h : m ≠ n) :
    alookup (aset l n v) m = alookup l m := by
  have h' : n ≠ m := Ne.symm h
  induction l with
  | nil => simp [aset, alookup, h']
  | cons hd tl ih =>
    obtain ⟨k, w⟩ := hd
    by_cases hk : k = n
    · subst hk
      simp [aset, alookup, h']
    · simp [aset, alookup, hk, ih]

/-! ## Kernel data model

Modelled from the spec: property values on a g-component are host-runtime
values; the model distinguishes the undefined value, string values (the
default attribute parse) and references to shared mutable objects held in a
heap (the reference-binding case). -/

inductive Value where
  | undef
  | str (s : String)
  | ref (r : Nat)
  deriving DecidableEq, Repr

/-- Modelled from the spec: a member of a behavior bag is a plain property
(with an initial value) or a method; method bodies are abstracted as opaque
code identifiers, since reachability and dispatch are what the claims are
about. -/
inductive Member where
  | prop (v : Value)
  | meth (code : Nat)
  deriving DecidableEq, Repr

/-- Modelled from the spec: an item of the behavior bag passed to the
`component()` initializer is either a plain (protected) member declaration or
a nested `publish` block holding the members to re-expose publicly. -/
inductive BagItem where
  | plain (name : String) (m : Member)
  | publish (entries : List (String × Member))
  deriving DecidableEq, Repr

/-- A behavior bag: the single object-valued argument of `component()`. -/
def Bag : Type := List BagItem

/-- Number of `publish` blocks appearing in a behavior bag. -/
def countPublish : List BagItem → Nat
  | [] => 0
  | BagItem.plain _ _ :: rest => countPublish rest
  | BagItem.publish _ :: rest => countPublish rest + 1

/-- Modelled from the spec: the Protected Surface holds every member of the
bag — published members included, since published properties are stored on
the protected prototype and merely forwarded. -/
def protectedOf : List BagItem → List (String × Member)
  | [] => []
  | BagItem.plain n m :: rest => (n, m) :: protectedOf rest
  | BagItem.publish es :: rest => es ++ protectedOf rest

/-- Names declared inside `publish` blocks: the members re-exposed on the
Public Surface via forwarding accessors. -/
def publishedOf : List BagItem → List String
  | [] => []
  | BagItem.plain _ _ :: rest => publishedOf rest
  | BagItem.publish es :: rest => es.map Prod.fst ++ publishedOf rest

/-- Definition-time composition errors. -/
inductive CompError where
  | multiplePublish
  deriving DecidableEq, Repr

/-- A composed component: its Protected Surface (all members) and the names
re-exposed on the Public Surface. -/
structure Component where
  protectedMembers : List (String × Member)
  publishedNames : List String
  deriving DecidableEq, Repr

/-- Modelled from the spec: the Trait Composer.  Composing a behavior bag
builds the Protected and Public Surfaces; a second `publish` block is a
definition-time error and construction aborts. -/
def component (bag : List BagItem) : Except CompError Component :=
  if 2 ≤ countPublish bag then Except.error CompError.multiplePublish
  else Except.ok ⟨protectedOf bag, publishedOf bag⟩

/-! ## Claim C1 -/

/-- Claim C1. For every behavior bag passed to the component initializer: with
zero or one `publish` block composition succeeds and builds the Protected and
Public Surfaces; with two or more it fails as a definition-time error and no
component is constructed. -/
theorem c1_publish_block_cardinality (bag : List BagItem) :
    (countPublish bag ≤ 1 →
      component bag = Except.ok ⟨protectedOf bag, publishedOf bag⟩) ∧
    (2 ≤ countPublish bag →
      component bag = Except.error CompError.multiplePublish) := by
  constructor
  · intro h
    have h2 : ¬ 2 ≤ countPublish bag := by omega
    simp [component, h2]
  · intro h
    simp [component, h]

/-- Witness for C1: a bag with one publish block composes; the same bag with a
second publish block aborts with the definition error. -/
theorem c1_publish_block_cardinality_witness :
    component [BagItem.plain "clickColor" (Member.prop (Value.str "orange")),
               BagItem.publish [("blueify", Member.meth 0)]] =
      Except.ok ⟨[("clickColor", Member.prop (Value.str "orange")),
                  ("blueify", Member.meth 0)], ["blueify"]⟩ ∧
    component [BagItem.publish [("blueify", Member.meth 0)],
               BagItem.publish [("redify", Member.meth 1)]] =
      Except.error CompError.multiplePublish := by
  refine ⟨?_, ?_⟩
  · exact (c1_publish_block_cardinality _).1 (by decide)
  · exact (c1_publish_block_cardinality _).2 (by decide)

/-! ## Surfaces and member lookup -/

/-- Reaching a member from protected context via `this`: every member of the
behavior bag lives on the protected prototype. -/
def lookupProtected (c : Component) (n : String) : Option Member :=
  alookup c.protectedMembers n

/-- Modelled from the spec: the Public Surface re-exposes published members
through forwarding accessors that read the same underlying (protected)
storage; a non-published member is simply absent. -/
def lookupPublic (c : Component) (n : String) : Option Member :=
  if n ∈ c.publishedNames then lookupProtected c n else none

/-- Host-runtime errors surfaced by the model. -/
inductive JSError where
  | notAFunction
  deriving DecidableEq, Repr

/-- Modelled from the spec: calling a member through the public surface.  A
member absent from the public surface yields the host runtime's generic
"not a function" error, not a custom error kind; a published method resolves
to its (abstract) body. -/
def callPublic (c : Component) (n : String) : Except JSError Member :=
  match lookupPublic c n with
  | some m => Except.ok m
  | none => Except.error JSError.notAFunction

/-- The flattened declarations of a behavior bag, each tagged with whether it
was declared inside a `publish` block. -/
def declsOf : List BagItem → List (String × Member × Bool)
  | [] => []
  | BagItem.plain n m :: rest => (n, m, false) :: declsOf rest
  | BagItem.publish es :: rest =>
      es.map (fun e => (e.1, e.2, true)) ++ declsOf rest

/-- All declared member names of a behavior bag. -/
def bagNames (bag : List BagItem) : List String :=
  (declsOf bag).map (fun d => d.1)

theorem protectedOf_names (bag : List BagItem) :
    (protectedOf bag).map Prod.fst = bagNames bag := by
  induction bag with
  | nil => rfl
  | cons item rest ih =>
    cases item with
    | plain n m => simp [protectedOf, declsOf, bagNames, List.map_cons] at ih ⊢; exact ih
    | publish es =>
      simp only [protectedOf, declsOf, bagNames, List.map_append, List.map_map] at ih ⊢
      rw [ih]
      rfl

theorem mem_protectedOf_of_mem_decls (bag : List BagItem) (n : String)
    (m : Member) (pub : Bool) (hmem : (n, m, pub) ∈ declsOf bag) :
    (n, m) ∈ protectedOf bag := by
  induction bag with
  | nil => cases hmem
  | cons item rest ih =>
    cases item with
    | plain k w =>
      rcases List.mem_cons.mp hmem with heq | htl
      · obtain ⟨h1, h2, _⟩ := Prod.mk.injEq .. ▸ heq
        exact List.mem_cons.mpr (Or.inl (by simp_all))
      · exact List.mem_cons.mpr (Or.inr (ih htl))
    | publish es =>
      rcases List.mem_append.mp hmem with hes | htl
      · rcases List.mem_map.mp hes with ⟨e, he, heq⟩
        have h1 : n = e.1 := by
          have := congrArg Prod.fst heq; simpa using this.symm
        have h2 : m = e.2 := by
          have := congrArg (fun d => d.2.1) heq; simpa using this.symm
        refine List.mem_append.mpr (Or.inl ?_)
        simpa [h1, h2] using he
      · exact List.mem_append.mpr (Or.inr (ih htl))

theorem mem_publishedOf_of_pub (bag : List BagItem) (n : String) (m : Member)
    (hmem : (n, m, true) ∈ declsOf bag) : n ∈ publishedOf bag := by
  induction bag with
  | nil => cases hmem
  | cons item rest ih =>
    cases item with
    | plain k w =>
      rcases List.mem_cons.mp hmem with heq | htl
      · exact absurd (congrArg (fun d => d.2.2) heq) (by simp)
      · exact ih htl
    | publish es =>
      rcases List.mem_append.mp hmem with hes | htl
      · rcases List.mem_map.mp hes with ⟨e, he, heq⟩
        have h1 : n = e.1 := by
          have := congrArg Prod.fst heq; simpa using this.symm
        refine List.mem_append.mpr (Or.inl ?_)
        exact h1 ▸ List.mem_map.mpr ⟨e, he, rfl⟩
      · exact List.mem_append.mpr (Or.inr (ih htl))

theorem publishedOf_subset_names (bag : List BagItem) (n : String)
    (hmem : n ∈ publishedOf bag) : n ∈ bagNames bag := by
  induction bag with
  | nil => cases hmem
  | cons item rest ih =>
    cases item with
    | plain k w =>
      simp only [publishedOf] at hmem
      simp only [bagNames, declsOf, List.map_cons]
      exact List.mem_cons.mpr (Or.inr (ih hmem))
    | publish es =>
      simp only [publishedOf] at hmem
      simp only [bagNames, declsOf, List.map_append, List.map_map]
      rcases List.mem_append.mp hmem with hes | htl
      · refine List.mem_append.mpr (Or.inl ?_)
        rcases List.mem_map.mp hes with ⟨e, he, heq⟩
        exact List.mem_map.mpr ⟨e, he, by simpa using heq⟩
      · exact List.mem_append.mpr (Or.inr (ih htl))

theorem decls_mem_names (bag : List BagItem) (n : String) (m : Member)
    (pub : Bool) (hmem : (n, m, pub) ∈ declsOf bag) : n ∈ bagNames bag :=
  List.mem_map.mpr ⟨(n, m, pub), hmem, rfl⟩

theorem not_published_of_plain (bag : List BagItem) (n : String) (m : Member)
    (hnd : (bagNames bag).Nodup) (hmem : (n, m, false) ∈ declsOf bag) :
    n ∉ publishedOf bag := by
  induction bag with
  | nil => cases hmem
  | cons item rest ih =>
    cases item with
    | plain k w =>
      simp only [bagNames, declsOf, List.map_cons, List.nodup_cons] at hnd
      rcases List.mem_cons.mp hmem with heq | htl
      · have hk : n = k := by
          have := congrArg Prod.fst heq; simpa using this
        intro hp
        exact hnd.1 (hk ▸ publishedOf_subset_names rest n (by simpa [publishedOf] using hp))
      · intro hp
        exact ih hnd.2 htl (by simpa [publishedOf] using hp)
    | publish es =>
      simp only [bagNames, declsOf, List.map_append, List.map_map] at hnd
      rcases List.mem_append.mp hmem with hes | htl
      · rcases List.mem_map.mp hes with ⟨e, _, heq⟩
        exact absurd (congrArg (fun d => d.2.2) heq) (by simp)
      · have hn : n ∈ bagNames rest := decls_mem_names rest n m false htl
        have hnd2 : (bagNames rest).Nodup := (List.nodup_append.mp hnd).2.1
        have hnotes : n ∉ es.map (fun e => e.1) := by
          intro hin
          exact (List.nodup_append.mp hnd).2.2 hin hn
        intro hp
        simp only [publishedOf] at hp
        rcases List.mem_append.mp hp with h1 | h2
        · exact hnotes h1
        · exact ih hnd2 htl h2

theorem alookup_of_mem_nodup {κ α : Type} [DecidableEq κ]
    (l : List (κ × α)) (n : κ) (v : α)
    (hmem : (n, v) ∈ l) (hnd : (l.map Prod.fst).Nodup) : alookup l n = some v := by
  induction l with
  | nil => cases hmem
  | cons hd tl ih =>
    obtain ⟨k, w⟩ := hd
    simp only [List.map_cons, List.nodup_cons] at hnd
    by_cases hk : k = n
    · subst hk
      rcases List.mem_cons.mp hmem with heq | htl
      · obtain ⟨_, h2⟩ := Prod.mk.injEq .. ▸ heq
        simp [alookup, h2.symm]
      · exact absurd (List.mem_map.mpr ⟨(k, v), htl, rfl⟩) hnd.1
    · rcases List.mem_cons.mp hmem with heq | htl
      · exact absurd (congrArg Prod.fst heq).symm hk
      · simp [alookup, hk, ih htl hnd.2]

/-! ## Claim C2 -/

/-- Claim C2. For every composed component and every member of its behavior bag
(member names distinct): the member is reachable from the public surface iff
it was declared inside the `publish` block; a non-published member is absent
from the public surface, so calling it externally yields the host runtime's
generic "not a function" error (no custom error kind); and every member,
published or not, is reachable from protected context via `this`. -/
theorem c2_publish_reachability (bag : List BagItem) (c : Component)
    (hok : component bag = Except.ok c)
    (hnd : (bagNames bag).Nodup)
    (n : String) (m : Member) (pub : Bool)
    (hmem : (n, m, pub) ∈ declsOf bag) :
    lookupProtected c n = some m ∧
    lookupPublic c n = (if pub then some m else none) ∧
    (pub = false → callPublic c n = Except.error JSError.notAFunction) := by
  have hc : c = ⟨protectedOf bag, publishedOf bag⟩ := by
    unfold component at hok
    split at hok
    · cases hok
    · exact (Except.ok.inj hok).symm
  subst hc
  have hprot : lookupProtected ⟨protectedOf bag, publishedOf bag⟩ n = some m := by
    unfold lookupProtected
    exact alookup_of_mem_nodup _ n m (mem_protectedOf_of_mem_decls bag n m pub hmem)
      (by rw [protectedOf_names]; exact hnd)
  refine ⟨hprot, ?_, ?_⟩
  · cases pub with
    | true =>
      have hp : n ∈ publishedOf bag := mem_publishedOf_of_pub bag n m hmem
      simpa [lookupPublic, hp] using hprot
    | false =>
      have hp : n ∉ publishedOf bag := not_published_of_plain bag n m hnd hmem
      simp [lookupPublic, hp]
  · intro hfalse
    subst hfalse
    have hp : n ∉ publishedOf bag := not_published_of_plain bag n m hnd hmem
    simp [callPublic, lookupPublic, hp]

/-- Witness for C2: in the `my-tag`-style bag, the published `blueify` method
is on the public surface, while the protected `clickHandler` is reachable via
`this` but absent publicly, and calling it externally is "not a function". -/
theorem c2_publish_reachability_witness :
    lookupProtected ⟨[("clickColor", Member.prop (Value.str "orange")),
                      ("clickHandler", Member.meth 1), ("blueify", Member.meth 0)],
                     ["blueify"]⟩ "clickHandler" = some (Member.meth 1) ∧
    lookupPublic ⟨[("clickColor", Member.prop (Value.str "orange")),
                   ("clickHandler", Member.meth 1), ("blueify", Member.meth 0)],
                  ["blueify"]⟩ "clickHandler" = none ∧
    callPublic ⟨[("clickColor", Member.prop (Value.str "orange")),
                 ("clickHandler", Member.meth 1), ("blueify", Member.meth 0)],
                ["blueify"]⟩ "clickHandler" = Except.error JSError.notAFunction ∧
    lookupPublic ⟨[("clickColor", Member.prop (Value.str "orange")),
                   ("clickHandler", Member.meth 1), ("blueify", Member.meth 0)],
                  ["blueify"]⟩ "blueify" = some (Member.meth 0) := by
  have h1 := c2_publish_reachability
    [BagItem.plain "clickColor" (Member.prop (Value.str "orange")),
     BagItem.plain "clickHandler" (Member.meth 1),
     BagItem.publish [("blueify", Member.meth 0)]]
    ⟨[("clickColor", Member.prop (Value.str "orange")),
      ("clickHandler", Member.meth 1), ("blueify", Member.meth 0)], ["blueify"]⟩
    (by rfl) (by decide) "clickHandler" (Member.meth 1) false (by decide)
  have h2 := c2_publish_reachability
    [BagItem.plain "clickColor" (Member.prop (Value.str "orange")),
     BagItem.plain "clickHandler" (Member.meth 1),
     BagItem.publish [("blueify", Member.meth 0)]]
    ⟨[("clickColor", Member.prop (Value.str "orange")),
      ("clickHandler", Member.meth 1), ("blueify", Member.meth 0)], ["blueify"]⟩
    (by rfl) (by decide) "blueify" (Member.meth 0) true (by decide)
  exact ⟨h1.1, by simpa using h1.2.1, h1.2.2 rfl, by simpa using h2.2.1⟩

/-! ## Attribute Reflector (instances, upgrade, attribute mutation) -/

/-- A live element instance: its composed component, the protected property
storage (published properties are forwarded into this same storage), and the
record of reference-binding expressions awaiting the out-of-band binding
machinery. -/
structure Instance where
  comp : Component
  props : List (String × Value)
  bindings : List (String × String)
  deriving DecidableEq, Repr

/-- Property read: published accessors forward to the protected storage, so
one read function serves both surfaces; a missing property is `undefined`. -/
def getProp (i : Instance) (n : String) : Value :=
  (alookup i.props n).getD Value.undef

/-- Property write into the (shared protected) storage. -/
def setProp (i : Instance) (n : String) (v : Value) : Instance :=
  { i with props := aset i.props n v }

/-- ASCII lower-casing on code points, as JS attribute-name matching does. -/
def lowerNat (n : Nat) : Nat := if 65 ≤ n ∧ n ≤ 90 then n + 32 else n

/-- The case-insensitive key of a name: its lower-cased code points. -/
def ciKey (s : String) : List Nat := s.data.map (fun c => lowerNat c.toNat)

/-- Case-insensitive name equality (attribute names are ASCII). -/
def ciEq (a b : String) : Bool := ciKey a = ciKey b

/-- Boolean prefix test on character lists. -/
def listHasPrefixB : List Char → List Char → Bool
  | _, [] => true
  | [], _ :: _ => false
  | c :: cs, d :: ds => if c = d then listHasPrefixB cs ds else false

/-- Modelled from the spec: a double-mustache expression denotes a reference
binding rather than a literal string. -/
def isBindingExpr (s : String) : Bool :=
  listHasPrefixB s.data ['\x7b', '\x7b'] &&
    listHasPrefixB s.data.reverse ['\x7d', '\x7d']

/-- Result of parsing one attribute value. -/
inductive AttrParse where
  | literal (v : Value)
  | bindingExpr (text : String)
  deriving DecidableEq, Repr

/-- Modelled from the spec: attribute values parse to the property's
current-value type with string passthrough by default; a recognized
binding-expression is NOT parsed to its referent — the literal expression
text is retained. -/
def parseAttrValue (s : String) : AttrParse :=
  if isBindingExpr s then AttrParse.bindingExpr s else AttrParse.literal (Value.str s)

/-- First attribute whose name matches the property name case-insensitively. -/
def findAttrCI (attrs : List (String × String)) (p : String) : Option String :=
  match attrs with
  | [] => none
  | (a, v) :: rest => if ciEq a p then some v else findAttrCI rest p

/-- First declared public property matching an attribute name
case-insensitively. -/
def findPropCI (names : List String) (a : String) : Option String :=
  match names with
  | [] => none
  | p :: rest => if ciEq p a then some p else findPropCI rest a

/-- Modelled from the spec: assigning a parsed attribute value to a public
property.  A literal parse is assigned outright (forwarding into protected
storage); a binding expression leaves the unevaluated text as what the
property getter returns and records the expression for the separate binding
machinery to resolve out of band. -/
def assignPublic (i : Instance) (p : String) (raw : String) : Instance :=
  match parseAttrValue raw with
  | AttrParse.literal v => setProp i p v
  | AttrParse.bindingExpr t =>
      { setProp i p (Value.str t) with bindings := aset i.bindings p t }

/-- Iterate attribute reflection over the declared public property names. -/
def reflectProps (attrs : List (String × String)) :
    Instance → List String → Instance
  | i, [] => i
  | i, p :: rest =>
    match findAttrCI attrs p with
    | none => reflectProps attrs i rest
    | some raw => reflectProps attrs (assignPublic i p raw) rest

/-- Modelled from the spec: on upgrade, for each declared public property,
read the matching attribute (case-insensitive) and assign its parsed value to
the public property.  Only public properties are attribute-settable. -/
def reflectOnUpgrade (i : Instance) (attrs : List (String × String)) : Instance :=
  reflectProps attrs i i.comp.publishedNames

/-- Modelled from the spec: on later attribute mutation the new value is
re-parsed and re-assigned to the matching public property; an attribute
matching no public property reflects nowhere. -/
def attributeChanged (i : Instance) (a : String) (v : String) : Instance :=
  match findPropCI i.comp.publishedNames a with
  | some p => assignPublic i p v
  | none => i

theorem assignPublic_getProp_ne (i : Instance) (q : String) (raw : String)
    (p : String) (h : p ≠ q) : getProp (assignPublic i q raw) p = getProp i p := by
  unfold assignPublic
  cases hb : parseAttrValue raw with
  | literal v => simp [getProp, setProp, alookup_aset_ne _ _ _ _ h]
  | bindingExpr t => simp [getProp, setProp, alookup_aset_ne _ _ _ _ h]

theorem assignPublic_bindings_ne (i : Instance) (q : String) (raw : String)
    (p : String) (h : p ≠ q) :
    alookup (assignPublic i q raw).bindings p = alookup i.bindings p := by
  unfold assignPublic
  cases hb : parseAttrValue raw with
  | literal v => simp [setProp]
  | bindingExpr t => simp [setProp, alookup_aset_ne _ _ _ _ h]

theorem assignPublic_getProp_self (i : Instance) (p : String) (raw : String) :
    getProp (assignPublic i p raw) p = Value.str raw := by
  unfold assignPublic parseAttrValue
  by_cases hb : isBindingExpr raw = true
  · simp [hb, getProp, setProp, alookup_aset_self]
  · simp [hb, getProp, setProp, alookup_aset_self]

theorem assignPublic_bindings_self (i : Instance) (p : String) (raw : String)
    (hb : isBindingExpr raw = true) :
    alookup (assignPublic i p raw).bindings p = some raw := by
  unfold assignPublic parseAttrValue
  simp [hb, setProp, alookup_aset_self]

theorem reflectProps_preserve (attrs : List (String × String))
    (names : List String) (p : String) (hp : p ∉ names) (i : Instance) :
    getProp (reflectProps attrs i names) p = getProp i p ∧
    alookup (reflectProps attrs i names).bindings p = alookup i.bindings p := by
  induction names generalizing i with
  | nil => exact ⟨rfl, rfl⟩
  | cons q rest ih =>
    have hq : p ≠ q := fun hc => hp (hc ▸ List.mem_cons_self q rest)
    have hrest : p ∉ rest := fun hc => hp (List.mem_cons.mpr (Or.inr hc))
    unfold reflectProps
    cases hfa : findAttrCI attrs q with
    | none => exact ih hrest i
    | some raw =>
      refine ⟨?_, ?_⟩
      · rw [(ih hrest _).1, assignPublic_getProp_ne _ _ _ _ hq]
      · rw [(ih hrest _).2, assignPublic_bindings_ne _ _ _ _ hq]

theorem reflectProps_assigned (attrs : List (String × String))
    (names : List String) (p : String) (raw : String)
    (hnd : names.Nodup) (hp : p ∈ names)
    (hattr : findAttrCI attrs p = some raw) (i : Instance) :
    getProp (reflectProps attrs i names) p = Value.str raw ∧
    (isBindingExpr raw = true →
      alookup (reflectProps attrs i names).bindings p = some raw) := by
  induction names generalizing i with
  | nil => cases hp
  | cons q rest ih =>
    rcases List.nodup_cons.mp hnd with ⟨hqn, hndr⟩
    by_cases hq : q = p
    · subst hq
      unfold reflectProps
      rw [hattr]
      refine ⟨?_, fun hb => ?_⟩
      · rw [(reflectProps_preserve attrs rest q hqn _).1,
          assignPublic_getProp_self]
      · rw [(reflectProps_preserve attrs rest q hqn _).2,
          assignPublic_bindings_self _ _ _ hb]
    · have hpr : p ∈ rest := by
        rcases List.mem_cons.mp hp with h | h
        · exact absurd h.symm hq
        · exact h
      unfold reflectProps
      cases hfa : findAttrCI attrs q with
      | none => exact ih hndr hpr i
      | some raw' => exact ih hndr hpr _

/-! ## Claim C3 -/

/-- Claim C3. For every declared public property whose matching attribute
(matched case-insensitively) carries a string value with no recognized
binding syntax: the value parses by string passthrough, after upgrade the
public property equals the parsed attribute value, on later attribute
mutation the value is re-parsed and re-assigned, and properties outside the
public surface never reflect from attributes. -/
theorem c3_attribute_string_reflection (i : Instance)
    (attrs : List (String × String)) (p : String) (raw : String)
    (hnd : i.comp.publishedNames.Nodup)
    (hp : p ∈ i.comp.publishedNames)
    (hattr : findAttrCI attrs p = some raw)
    (hnb : isBindingExpr raw = false) :
    parseAttrValue raw = AttrParse.literal (Value.str raw) ∧
    getProp (reflectOnUpgrade i attrs) p = Value.str raw ∧
    (∀ a v, findPropCI i.comp.publishedNames a = some p →
      getProp (attributeChanged i a v) p = Value.str v) ∧
    (∀ q, q ∉ i.comp.publishedNames →
      getProp (reflectOnUpgrade i attrs) q = getProp i q) := by
  unfold reflectOnUpgrade
  refine ⟨by simp [parseAttrValue, hnb], ?_, ?_, ?_⟩
  · exact (reflectProps_assigned attrs i.comp.publishedNames p raw hnd hp hattr i).1
  · intro a v hfp
    unfold attributeChanged
    rw [hfp]
    exact assignPublic_getProp_self i p v
  · intro q hq
    exact (reflectProps_preserve attrs i.comp.publishedNames q hq i).1

/-- Witness for C3: upgrading a `name-tag` with `namecolor="tomato"` sets the
public `nameColor` property (case-insensitive match, string passthrough),
while the protected `secret` property is untouched by the attributes. -/
theorem c3_attribute_string_reflection_witness :
    getProp
      (reflectOnUpgrade
        ⟨⟨[("nameColor", Member.prop (Value.str "orange")),
           ("secret", Member.prop (Value.str "hidden"))], ["nameColor"]⟩,
         [("nameColor", Value.str "orange"), ("secret", Value.str "hidden")], []⟩
        [("myname", "Steve"), ("namecolor", "tomato")]) "nameColor" =
      Value.str "tomato" ∧
    getProp
      (reflectOnUpgrade
        ⟨⟨[("nameColor", Member.prop (Value.str "orange")),
           ("secret", Member.prop (Value.str "hidden"))], ["nameColor"]⟩,
         [("nameColor", Value.str "orange"), ("secret", Value.str "hidden")], []⟩
        [("myname", "Steve"), ("namecolor", "tomato")]) "secret" =
      Value.str "hidden" := by
  have h := c3_attribute_string_reflection
    ⟨⟨[("nameColor", Member.prop (Value.str "orange")),
       ("secret", Member.prop (Value.str "hidden"))], ["nameColor"]⟩,
     [("nameColor", Value.str "orange"), ("secret", Value.str "hidden")], []⟩
    [("myname", "Steve"), ("namecolor", "tomato")] "nameColor" "tomato"
    (by decide) (by decide) (by decide) (by decide)
  refine ⟨h.2.1, ?_⟩
  have h2 := h.2.2.2 "secret" (by decide)
  rw [h2]
  decide

/-! ## Claim C7 -/

/-- Claim C7. For every attribute whose value is a recognized double-mustache
binding expression: the attribute is not parsed to its referent; reading the
bound property after upgrade returns the unevaluated binding-expression text;
and the expression is recorded for the separate binding machinery, which
resolves the shared reference out of band. -/
theorem c7_binding_expression_retained (i : Instance)
    (attrs : List (String × String)) (p : String) (text : String)
    (hnd : i.comp.publishedNames.Nodup)
    (hp : p ∈ i.comp.publishedNames)
    (hattr : findAttrCI attrs p = some text)
    (hb : isBindingExpr text = true) :
    parseAttrValue text = AttrParse.bindingExpr text ∧
    getProp (reflectOnUpgrade i attrs) p = Value.str text ∧
    alookup (reflectOnUpgrade i attrs).bindings p = some text := by
  unfold reflectOnUpgrade
  refine ⟨by simp [parseAttrValue, hb], ?_, ?_⟩
  · exact (reflectProps_assigned attrs i.comp.publishedNames p text hnd hp hattr i).1
  · exact (reflectProps_assigned attrs i.comp.publishedNames p text hnd hp hattr i).2 hb

/-- Witness for C7: the `person="\x7b\x7bperson\x7d\x7d"` attribute leaves the
double-mustache text as what the `person` getter returns, and records the
expression for out-of-band resolution. -/
theorem c7_binding_expression_retained_witness :
    getProp
      (reflectOnUpgrade
        ⟨⟨[("person", Member.prop Value.undef)], ["person"]⟩,
         [("person", Value.undef)], []⟩
        [("person", "\x7b\x7bperson\x7d\x7d")]) "person" =
      Value.str "\x7b\x7bperson\x7d\x7d" ∧
    alookup
      (reflectOnUpgrade
        ⟨⟨[("person", Member.prop Value.undef)], ["person"]⟩,
         [("person", Value.undef)], []⟩
        [("person", "\x7b\x7bperson\x7d\x7d")]).bindings "person" =
      some "\x7b\x7bperson\x7d\x7d" := by
  have h := c7_binding_expression_retained
    ⟨⟨[("person", Member.prop Value.undef)], ["person"]⟩,
     [("person", Value.undef)], []⟩
    [("person", "\x7b\x7bperson\x7d\x7d")] "person" "\x7b\x7bperson\x7d\x7d"
    (by decide) (by decide) (by decide) (by decide)
  exact ⟨h.2.1, h.2.2⟩

/-! ## Change Notifier -/

/-- One invocation of a `<name>Changed` hook: the hook's name, the sole
argument it receives (the immediately preceding value), and the value the
watched property holds at the moment the hook runs. -/
structure HookCall where
  hook : String
  arg : Value
  observed : Value
  deriving DecidableEq, Repr

/-- Whether a same-named `<property>Changed` method exists on the Protected
Surface. -/
def hasChangedHook (c : Component) (p : String) : Bool :=
  match alookup c.protectedMembers (p ++ "Changed") with
  | some (Member.meth _) => true
  | _ => false

theorem getProp_setProp_self (i : Instance) (p : String) (v : Value) :
    getProp (setProp i p v) p = v := by
  simp [getProp, setProp, alookup_aset_self]

/-- Modelled from the spec: the Change Notifier intercepts a property write;
it captures the prior value, performs the write, then—synchronously, within
the same write call—invokes the matching `<property>Changed` hook with the
prior value as its sole argument.  The returned list records the hook calls
this one write performed. -/
def writeWatched (i : Instance) (p : String) (v : Value) :
    Instance × List HookCall :=
  let old := getProp i p
  let i' := setProp i p v
  if hasChangedHook i.comp p then
    (i', [⟨p ++ "Changed", old, getProp i' p⟩])
  else
    (i', [])

/-! ## Claim C4 -/

/-- Claim C4. For every property with a same-named `<property>Changed` hook on
the Protected Surface: each write invokes the hook exactly once, within the
write call, with the immediately preceding value as its sole argument, and
the write is performed before the hook runs (the hook observes the new
value).  A second write fires its own single call whose argument is the value
the first write installed — calls are per-write, not batched. -/
theorem c4_change_watcher (i : Instance) (p : String) (v w : Value)
    (hw : hasChangedHook i.comp p = true) :
    writeWatched i p v =
      (setProp i p v, [⟨p ++ "Changed", getProp i p, v⟩]) ∧
    (writeWatched (writeWatched i p v).1 p w).2 =
      [⟨p ++ "Changed", v, w⟩] := by
  have h1 : writeWatched i p v =
      (setProp i p v, [⟨p ++ "Changed", getProp i p, v⟩]) := by
    unfold writeWatched
    simp [hw, getProp_setProp_self]
  refine ⟨h1, ?_⟩
  rw [h1]
  have hw' : hasChangedHook (setProp i p v).comp p = true := hw
  unfold writeWatched
  simp [hw', getProp_setProp_self]

/-- Witness for C4: writing `better := "best"` on an instance that declares
`betterChanged` fires the hook once with the prior value `""`, and a second
write to `"best2"` fires once with prior value `"best"`. -/
theorem c4_change_watcher_witness :
    writeWatched
      ⟨⟨[("better", Member.prop (Value.str "")),
         ("betterChanged", Member.meth 0)], []⟩,
       [("better", Value.str "")], []⟩ "better" (Value.str "best") =
      (setProp
        ⟨⟨[("better", Member.prop (Value.str "")),
           ("betterChanged", Member.meth 0)], []⟩,
         [("better", Value.str "")], []⟩ "better" (Value.str "best"),
       [⟨"betterChanged", Value.str "", Value.str "best"⟩]) ∧
    (writeWatched
      (writeWatched
        ⟨⟨[("better", Member.prop (Value.str "")),
           ("betterChanged", Member.meth 0)], []⟩,
         [("better", Value.str "")], []⟩ "better" (Value.str "best")).1
      "better" (Value.str "best2")).2 =
      [⟨"betterChanged", Value.str "best", Value.str "best2"⟩] := by
  have h := c4_change_watcher
    ⟨⟨[("better", Member.prop (Value.str "")),
       ("betterChanged", Member.meth 0)], []⟩,
     [("better", Value.str "")], []⟩
    "better" (Value.str "best") (Value.str "best2") (by decide)
  have hold : getProp
      ⟨⟨[("better", Member.prop (Value.str "")),
         ("betterChanged", Member.meth 0)], []⟩,
       [("better", Value.str "")], []⟩ "better" = Value.str "" := by decide
  exact ⟨by rw [h.1, hold]; decide, by rw [h.2]; decide⟩

/-! ## Inheritance Resolver and the reserved super reference -/

/-- The protected context the `g-cool` / `g-cooler` example mutates. -/
structure PState where
  better : String
  deriving DecidableEq, Repr

/-- A method body: it receives the reserved super reference (a call into the
parent's same-named implementation, running on the state it is given) and the
protected context it executes with. -/
def Method : Type := (PState → PState) → PState → PState

/-- Modelled from the spec: the Inheritance Resolver links a component's
protected behavior set to its parent's; the chain lists each component's own
method table, nearest first.  Invoking a name dispatches to the nearest
definition and wires its reserved super reference to the parent chain;
members not redefined by the child resolve to the parent's implementation. -/
def invoke : List (List (String × Method)) → String → PState → PState
  | [], _, s => s
  | ms :: ancestors, n, s =>
    match alookup ms n with
    | some m => m (fun s' => invoke ancestors n s') s
    | none => invoke ancestors n s

/-- Modelled from the spec: the parent component `g-cool`, whose `moarBetter`
implementation is an arbitrary transformation `f` of the protected context. -/
def gCool (f : PState → PState) : List (List (String × Method)) :=
  [[("moarBetter", fun _ s => f s)]]

/-- Modelled from the spec: `g-cooler extends g-cool`, overriding `moarBetter`
to call the inherited implementation via the reserved super reference and then
append the suffix to the protected `better` property. -/
def gCooler (f : PState → PState) : List (List (String × Method)) :=
  [("moarBetter", fun callSuper s =>
      let s' := callSuper s
      { s' with better := s'.better ++ "even more." })] :: gCool f

/-! ## Claim C5 -/

/-- Claim C5. Invoking `moarBetter` on `g-cooler extends g-cool` runs the
parent's implementation with the child's protected context (the very state
`s` the child call received) and then appends the suffix, so afterwards
`better` equals the value the parent's implementation produced concatenated
with the child's suffix. -/
theorem c5_super_call (f : PState → PState) (s : PState) :
    invoke (gCooler f) "moarBetter" s =
      { f s with better := (f s).better ++ "even more." } := by
  simp [invoke, gCooler, gCool, alookup]

/-! ## Event Binder -/

/-- A DOM or custom event as handlers receive it. -/
structure Event where
  name : String
  detail : Value
  target : Nat
  currentTarget : Nat
  deriving DecidableEq, Repr

/-- A registered listener: the node that declared the `on-<event>` attribute,
the event name, and the protected method it names. -/
structure Listener where
  node : Nat
  event : String
  method : String
  deriving DecidableEq, Repr

/-- An argument the Event Binder passes to a handler. -/
inductive HandlerArg where
  | ev (e : Event)
  | detailArg (v : Value)
  | sender (node : Nat)
  deriving DecidableEq, Repr

/-- A handler invocation: the protected method name and its argument list. -/
structure HandlerCall where
  method : String
  args : List HandlerArg
  deriving DecidableEq, Repr

/-- Modelled from the spec: the Event Binder reads an `on-<event>` declaration
on a node and registers a listener mapping that event to the named protected
method; an attribute without the `on-` prefix binds nothing. -/
def bindEventAttr (node : Nat) (attr : String) (methodName : String) :
    Option Listener :=
  if listHasPrefixB attr.data ['o', 'n', '-'] then
    some ⟨node, attr.drop 3, methodName⟩
  else none

/-- Modelled from the spec: when the named event fires at a listener, the
method is invoked with exactly three arguments in order — the raw event
object, the convenience alias for the event's `detail`, and the node that
declared the handler. -/
def fireAt (l : Listener) (e : Event) : Option HandlerCall :=
  if e.name = l.event then
    some ⟨l.method, [HandlerArg.ev e, HandlerArg.detailArg e.detail,
                     HandlerArg.sender l.node]⟩
  else none

/-! ## Claim C6 -/

/-- Claim C6. For every `on-<event>` declaration bound by the Event Binder,
each firing of the named event invokes the named protected method with
exactly three arguments in order: the raw event object, the alias for the
event's `detail` payload, and the node that declared the attribute — a node
that need not be the event's target or currentTarget. -/
theorem c6_event_handler_args (node : Nat) (attr methodName : String)
    (l : Listener) (e : Event)
    (hbind : bindEventAttr node attr methodName = some l)
    (hfire : e.name = l.event) :
    fireAt l e = some ⟨methodName,
      [HandlerArg.ev e, HandlerArg.detailArg e.detail,
       HandlerArg.sender node]⟩ := by
  unfold bindEventAttr at hbind
  split at hbind
  · have hl := Option.some.inj hbind
    subst hl
    unfold fireAt
    simp [hfire]
  · cases hbind

/-- Witness for C6: the `on-click="buttonClick"` declaration on node 7, fired
with a `click` event whose target is node 3 and currentTarget node 5, invokes
`buttonClick` with the event, its detail, and sender node 7 — a node distinct
from both the target and the currentTarget. -/
theorem c6_event_handler_args_witness :
    fireAt ⟨7, "click", "buttonClick"⟩
        ⟨"click", Value.str "payload", 3, 5⟩ =
      some ⟨"buttonClick",
        [HandlerArg.ev ⟨"click", Value.str "payload", 3, 5⟩,
         HandlerArg.detailArg (Value.str "payload"),
         HandlerArg.sender 7]⟩ ∧ (7 : Nat) ≠ 3 ∧ (7 : Nat) ≠ 5 := by
  refine ⟨?_, by decide, by decide⟩
  exact c6_event_handler_args 7 "on-click" "buttonClick"
    ⟨7, "click", "buttonClick"⟩ ⟨"click", Value.str "payload", 3, 5⟩
    (by decide) rfl

/-! ## Shared reference binding (heap of mutable objects) -/

/-- A mutable host object: a record of fields. -/
abbrev Obj : Type := List (String × Value)

/-- The host heap: objects addressed by reference. -/
abbrev Heap : Type := List (Nat × Obj)

/-- Read a field of the object at a reference. -/
def heapRead (h : Heap) (r : Nat) (f : String) : Option Value :=
  match alookup h r with
  | some o => alookup o f
  | none => none

/-- Mutate a field of the object at a reference, in place. -/
def heapWrite (h : Heap) (r : Nat) (f : String) (v : Value) : Heap :=
  match alookup h r with
  | some o => aset h r (aset o f v)
  | none => h

/-- Modelled from the spec: the binding machinery connects a consumer's bound
property to the provider's, so both components hold the very same object
reference afterwards. -/
def bindRef (provider consumer : Instance) (p : String) : Instance :=
  setProp consumer p (getProp provider p)

/-- Read a field of a reference-valued property through a component. -/
def readThrough (h : Heap) (i : Instance) (p f : String) : Option Value :=
  match getProp i p with
  | Value.ref r => heapRead h r f
  | _ => none

/-- Mutate a field of a reference-valued property through a component: the
write goes to the shared object on the heap. -/
def writeThrough (h : Heap) (i : Instance) (p f : String) (v : Value) : Heap :=
  match getProp i p with
  | Value.ref r => heapWrite h r f v
  | _ => h

theorem alookup_heapWrite_self (h : Heap) (r : Nat) (f : String) (v : Value)
    (o : Obj) (hobj : alookup h r = some o) :
    alookup (heapWrite h r f v) r = some (aset o f v) := by
  unfold heapWrite
  rw [hobj]
  exact alookup_aset_self h r (aset o f v)

theorem heapRead_heapWrite_self (h : Heap) (r : Nat) (f : String) (v : Value)
    (o : Obj) (hobj : alookup h r = some o) :
    heapRead (heapWrite h r f v) r f = some v := by
  unfold heapRead
  rw [alookup_heapWrite_self h r f v o hobj]
  exact alookup_aset_self o f v

/-! ## Claim C8 -/

/-- Claim C8. For every provider/consumer pair connected via a bound reference
attribute: after binding, both hold the same object reference, so any read
agrees between the two, a mutation performed through either component is
observable through the other without explicit synchronization, and two
sequential writes to the same field resolve last-write-wins. -/
theorem c8_shared_mutable_object (h : Heap) (provider consumer : Instance)
    (p f : String) (r : Nat) (v w : Value) (o : Obj)
    (hprov : getProp provider p = Value.ref r)
    (hobj : alookup h r = some o) :
    getProp (bindRef provider consumer p) p = Value.ref r ∧
    (∀ g, readThrough h (bindRef provider consumer p) p g =
      readThrough h provider p g) ∧
    readThrough (writeThrough h provider p f v)
      (bindRef provider consumer p) p f = some v ∧
    readThrough (writeThrough h (bindRef provider consumer p) p f v)
      provider p f = some v ∧
    readThrough
      (writeThrough (writeThrough h provider p f v)
        (bindRef provider consumer p) p f w) provider p f = some w := by
  have hcons : getProp (bindRef provider consumer p) p = Value.ref r := by
    unfold bindRef
    rw [hprov]
    exact getProp_setProp_self consumer p (Value.ref r)
  refine ⟨hcons, ?_, ?_, ?_, ?_⟩
  · intro g
    unfold readThrough
    rw [hcons, hprov]
  · unfold readThrough writeThrough
    rw [hcons, hprov]
    exact heapRead_heapWrite_self h r f v o hobj
  · unfold readThrough writeThrough
    rw [hcons, hprov]
    exact heapRead_heapWrite_self h r f v o hobj
  · unfold readThrough writeThrough
    rw [hcons, hprov]
    exact heapRead_heapWrite_self _ r f w (aset o f v)
      (alookup_heapWrite_self h r f v o hobj)

/-- Witness for C8: binding `name-tag`'s `person` to `visitor-creds`' shared
record (reference 0), a write of `name := "Steve"` through the provider is
read back as `"Steve"` through the consumer. -/
theorem c8_shared_mutable_object_witness :
    readThrough
      (writeThrough [(0, [("name", Value.str "Scott"),
                          ("nameColor", Value.str "orange")])]
        ⟨⟨[("person", Member.prop (Value.ref 0))], ["person"]⟩,
         [("person", Value.ref 0)], []⟩ "person" "name" (Value.str "Steve"))
      (bindRef
        ⟨⟨[("person", Member.prop (Value.ref 0))], ["person"]⟩,
         [("person", Value.ref 0)], []⟩
        ⟨⟨[("person", Member.prop Value.undef)], ["person"]⟩,
         [("person", Value.undef)], []⟩ "person")
      "person" "name" = some (Value.str "Steve") := by
  have h := c8_shared_mutable_object
    [(0, [("name", Value.str "Scott"), ("nameColor", Value.str "orange")])]
    ⟨⟨[("person", Member.prop (Value.ref 0))], ["person"]⟩,
     [("person", Value.ref 0)], []⟩
    ⟨⟨[("person", Member.prop Value.undef)], ["person"]⟩,
     [("person", Value.undef)], []⟩
    "person" "name" 0 (Value.str "Steve") (Value.str "Bob")
    [("name", Value.str "Scott"), ("nameColor", Value.str "orange")]
    (by decide) (by decide)
  exact h.2.2.1

/-! ## Vendored renderer: `goog.ui.ImagelessButtonRenderer`

Translated from `imagelessbuttonrenderer.js`.  DOM nodes are elements with a
`className` and a child list, or text nodes. -/

inductive JSNode where
  | elem (className : String) (children : List JSNode)
  | text (s : String)

/-- Translation of `node.firstChild` (text nodes have no children). -/
def firstChild : JSNode → Option JSNode
  | JSNode.elem _ cs => cs.head?
  | JSNode.text _ => none

/-- Translation of `node.lastChild`. -/
def lastChild : JSNode → Option JSNode
  | JSNode.elem _ cs => cs.getLast?
  | JSNode.text _ => none

/-- Whether a node is an element (as opposed to a text node). -/
def isElem : JSNode → Bool
  | JSNode.elem _ _ => true
  | JSNode.text _ => false

/-- Translation of `element.className` (only elements carry one). -/
def classNameOf : JSNode → String
  | JSNode.elem cls _ => cls
  | JSNode.text _ => ""

/-- First element (skipping text nodes) of a child list, together with the
children following it — the context `getNextElementSibling` needs. -/
def firstElemOf : List JSNode → Option (JSNode × List JSNode)
  | [] => none
  | n :: rest => if isElem n then some (n, rest) else firstElemOf rest

/-- Translation of `goog.dom.DomHelper#getFirstElementChild`. -/
def getFirstElementChild (n : JSNode) : Option JSNode :=
  match n with
  | JSNode.elem _ cs => (firstElemOf cs).map Prod.fst
  | JSNode.text _ => none

/-- Variant of `getFirstElementChild` keeping the following siblings, so the next
element sibling of the result can be taken. -/
def getFirstElementChildWithRest (n : JSNode) : Option (JSNode × List JSNode) :=
  match n with
  | JSNode.elem _ cs => firstElemOf cs
  | JSNode.text _ => none

/-- Boolean substring test on character lists. -/
def listHasSubB : List Char → List Char → Bool
  | [], needle => listHasPrefixB [] needle
  | c :: rest, needle =>
    listHasPrefixB (c :: rest) needle || listHasSubB rest needle

/-- Translation of `className.indexOf(needle) != -1`: substring containment. -/
def classContains (cls needle : String) : Bool :=
  listHasSubB cls.data needle.data

/-- Translation of `goog.getCssName(base, suffix)` in uncompiled form: dash-join. -/
def getCssName (base suffix : String) : String := base ++ "-" ++ suffix

/-- Translation of `goog.ui.ImagelessButtonRenderer.CSS_CLASS`. -/
def CSS_CLASS : String := "goog-imageless-button"

/-- Translation of `getCssClass()`: returns the renderer's CSS class. -/
def getCssClass : String := CSS_CLASS

/-- Translation of `goog.ui.INLINE_BLOCK_CLASSNAME` (defined in the vendored library). -/
def INLINE_BLOCK_CLASSNAME : String := "goog-inline-block"

/-- Translation of `createButton(content, dom)`: wraps the content in the outer-box /
inner-box / pos / (top-shadow, content) nesting.  The DomHelper argument only
constructs nodes, so it has no counterpart here. -/
def createButton (content : JSNode) : JSNode :=
  let baseClass := getCssClass
  let inlineBlock := INLINE_BLOCK_CLASSNAME ++ " "
  JSNode.elem (inlineBlock ++ getCssName baseClass "outer-box")
    [JSNode.elem (inlineBlock ++ getCssName baseClass "inner-box")
      [JSNode.elem (getCssName baseClass "pos")
        [JSNode.elem (getCssName baseClass "top-shadow") [JSNode.text "\u00A0"],
         JSNode.elem (getCssName baseClass "content") [content]]]]

/-- Translation of `hasBoxStructure(button, element)`: walks first element children checking
class-name containment at each level, then the next element sibling of the
shadow.  The button argument only supplies the DomHelper, so it has no
counterpart here. -/
def hasBoxStructure (element : JSNode) : Bool :=
  match getFirstElementChild element with
  | some outer =>
    if classContains (classNameOf outer) (getCssName getCssClass "outer-box") then
      match getFirstElementChild outer with
      | some inner =>
        if classContains (classNameOf inner) (getCssName getCssClass "inner-box") then
          match getFirstElementChild inner with
          | some pos =>
            if classContains (classNameOf pos) (getCssName getCssClass "pos") then
              match getFirstElementChildWithRest pos with
              | some (shadow, after) =>
                if classContains (classNameOf shadow)
                    (getCssName getCssClass "top-shadow") then
                  match firstElemOf after with
                  | some (content, _) =>
                    classContains (classNameOf content)
                      (getCssName getCssClass "content")
                  | none => false
                else false
              | none => false
            else false
          | none => false
        else false
      | none => false
    else false
  | none => false

/-- The chain of first element children and class containments that
`hasBoxStructure` walks, stated as the structure an element must exhibit. -/
def hasBoxChain (element : JSNode) : Prop :=
  ∃ outer inner pos shadow after content rest2,
    getFirstElementChild element = some outer ∧
    classContains (classNameOf outer) (getCssName getCssClass "outer-box") = true ∧
    getFirstElementChild outer = some inner ∧
    classContains (classNameOf inner) (getCssName getCssClass "inner-box") = true ∧
    getFirstElementChild inner = some pos ∧
    classContains (classNameOf pos) (getCssName getCssClass "pos") = true ∧
    getFirstElementChildWithRest pos = some (shadow, after) ∧
    classContains (classNameOf shadow) (getCssName getCssClass "top-shadow") = true ∧
    firstElemOf after = some (content, rest2) ∧
    classContains (classNameOf content) (getCssName getCssClass "content") = true

theorem hasBoxStructure_iff (e : JSNode) :
    hasBoxStructure e = true ↔ hasBoxChain e := by
  constructor
  · intro h
    unfold hasBoxStructure at h
    split at h
    next outer heq1 =>
      split at h
      next hc1 =>
        split at h
        next inner heq2 =>
          split at h
          next hc2 =>
            split at h
            next pos heq3 =>
              split at h
              next hc3 =>
                split at h
                next shadow after heq4 =>
                  split at h
                  next hc4 =>
                    split at h
                    next content rest2 heq5 =>
                      exact ⟨outer, inner, pos, shadow, after, content, rest2,
                        heq1, hc1, heq2, hc2, heq3, hc3, heq4, hc4, heq5, h⟩
                    next heq5 => simp at h
                  next hc4 => simp at h
                next heq4 => simp at h
              next hc3 => simp at h
            next heq3 => simp at h
          next hc2 => simp at h
        next heq2 => simp at h
      next hc1 => simp at h
    next heq1 => simp at h
  · rintro ⟨outer, inner, pos, shadow, after, content, rest2,
      heq1, hc1, heq2, hc2, heq3, hc3, heq4, hc4, heq5, hc5⟩
    unfold hasBoxStructure
    simp [heq1, hc1, heq2, hc2, heq3, hc3, heq4, hc4, heq5, hc5]

theorem firstElemOf_skip (pre : List JSNode) (n : JSNode) (post : List JSNode)
    (hpre : ∀ m ∈ pre, isElem m = false) (hn : isElem n = true) :
    firstElemOf (pre ++ n :: post) = some (n, post) := by
  induction pre with
  | nil => simp [firstElemOf, hn]
  | cons q rest ih =>
    have hq : isElem q = false := hpre q (List.mem_cons_self q rest)
    simp only [List.cons_append, firstElemOf, hq]
    exact ih (fun m hm => hpre m (List.mem_cons.mpr (Or.inr hm)))

/-! ## Claim C9 -/

/-- Claim C9. For every content value: a button root whose first element child
is the `createButton` result passes `hasBoxStructure`, and `hasBoxStructure`
accepts exactly the elements whose chain of first element children and class
names matches the outer-box / inner-box / pos / top-shadow-then-content
nesting — it returns `false`, without error, at any deviation. -/
theorem c9_createButton_box_roundtrip :
    (∀ (content : JSNode) (rootClass : String) (pre post : List JSNode),
      (∀ m ∈ pre, isElem m = false) →
      hasBoxStructure
        (JSNode.elem rootClass (pre ++ createButton content :: post)) = true) ∧
    (∀ e : JSNode, hasBoxStructure e = true ↔ hasBoxChain e) := by
  refine ⟨?_, hasBoxStructure_iff⟩
  intro content rootClass pre post hpre
  refine (hasBoxStructure_iff _).mpr
    ⟨createButton content,
     JSNode.elem (INLINE_BLOCK_CLASSNAME ++ " " ++ getCssName getCssClass "inner-box")
       [JSNode.elem (getCssName getCssClass "pos")
         [JSNode.elem (getCssName getCssClass "top-shadow") [JSNode.text " "],
          JSNode.elem (getCssName getCssClass "content") [content]]],
     JSNode.elem (getCssName getCssClass "pos")
       [JSNode.elem (getCssName getCssClass "top-shadow") [JSNode.text " "],
        JSNode.elem (getCssName getCssClass "content") [content]],
     JSNode.elem (getCssName getCssClass "top-shadow") [JSNode.text " "],
     [JSNode.elem (getCssName getCssClass "content") [content]],
     JSNode.elem (getCssName getCssClass "content") [content],
     [], ?_, ?_, ?_, ?_, ?_, ?_, ?_, ?_, ?_, ?_⟩
  · simp only [getFirstElementChild]
    rw [firstElemOf_skip pre (createButton content) post hpre rfl]
    rfl
  · show classContains (INLINE_BLOCK_CLASSNAME ++ " " ++ getCssName getCssClass "outer-box")
        (getCssName getCssClass "outer-box") = true
    decide
  · rfl
  · show classContains (INLINE_BLOCK_CLASSNAME ++ " " ++ getCssName getCssClass "inner-box")
        (getCssName getCssClass "inner-box") = true
    decide
  · rfl
  · show classContains (getCssName getCssClass "pos") (getCssName getCssClass "pos") = true
    decide
  · rfl
  · decide
  · rfl
  · show classContains (getCssName getCssClass "content")
        (getCssName getCssClass "content") = true
    decide

/-- Witness for C9: a concrete button root holding the `createButton` result
for the text caption "OK" passes the structure check. -/
theorem c9_createButton_box_roundtrip_witness :
    hasBoxStructure
      (JSNode.elem (INLINE_BLOCK_CLASSNAME ++ " " ++ CSS_CLASS)
        [createButton (JSNode.text "OK")]) = true :=
  c9_createButton_box_roundtrip.1 (JSNode.text "OK")
    (INLINE_BLOCK_CLASSNAME ++ " " ++ CSS_CLASS) [] []
    (fun m hm => absurd hm (List.not_mem_nil m))

/-! ## `getContentElement` (claim C10) -/

/-- Translated from `getContentElement`: the JS expression
`element && element.firstChild && element.firstChild.firstChild &&
element.firstChild.firstChild.firstChild.lastChild`.  The first three
conjuncts guard their dereferences, but the final conjunct dereferences
`element.firstChild.firstChild.firstChild` without a null check; a thrown
TypeError is modelled as `Except.error ()`, a null-ish result as
`Except.ok none`. -/
def getContentElement (element : Option JSNode) : Except Unit (Option JSNode) :=
  match element with
  | none => Except.ok none
  | some e =>
    match firstChild e with
    | none => Except.ok none
    | some c1 =>
      match firstChild c1 with
      | none => Except.ok none
      | some c2 =>
        match firstChild c2 with
        | none => Except.error ()
        | some c3 => Except.ok (lastChild c3)

/-- The shape at which `getContentElement`'s guard chain has no null check:
the element's first child has a first child, which itself has no first
child. -/
def unguardedShape (element : Option JSNode) : Prop :=
  ∃ e c1 c2, element = some e ∧ firstChild e = some c1 ∧
    firstChild c1 = some c2 ∧ firstChild c2 = none

/-- Counterexample to C10 as stated: at a root whose grandchild element has no
children, `getContentElement` dereferences null and throws rather than
returning a null-ish value. -/
theorem c10_unguarded_deref_counterexample :
    getContentElement
      (some (JSNode.elem "goog-inline-block goog-imageless-button"
        [JSNode.elem "goog-inline-block goog-imageless-button-outer-box"
          [JSNode.elem "goog-imageless-button-inner-box" []]])) =
      Except.error () := rfl

/-- Claim C10, amended. `getContentElement` returns the content node or a
null-ish value without throwing for every input — null included — except
elements of the one unguarded shape (first child's first child exists but has
no first child), where the final dereference throws: it throws exactly
there. -/
theorem c10_getContentElement_total_except_unguarded (element : Option JSNode) :
    ((getContentElement element = Except.error ()) ↔ unguardedShape element) ∧
    (¬ unguardedShape element →
      ∃ r, getContentElement element = Except.ok r) := by
  have key : ∀ el : Option JSNode,
      (getContentElement el = Except.error ()) ↔ unguardedShape el := by
    intro el
    constructor
    · intro h
      unfold getContentElement at h
      split at h
      · simp at h
      next e =>
        split at h
        · simp at h
        next c1 h1 =>
          split at h
          · simp at h
          next c2 h2 =>
            split at h
            next h3 => exact ⟨e, c1, c2, rfl, h1, h2, h3⟩
            next c3 h3 => simp at h
    · rintro ⟨e, c1, c2, rfl, h1, h2, h3⟩
      unfold getContentElement
      simp [h1, h2, h3]
  refine ⟨key element, ?_⟩
  intro hn
  cases hres : getContentElement element with
  | ok r => exact ⟨r, rfl⟩
  | error u =>
    cases u
    exact absurd ((key element).mp hres) hn

/-- Witness for the amended C10: a text-node root is not of the unguarded
shape, and `getContentElement` returns a null-ish value there. -/
theorem c10_getContentElement_total_except_unguarded_witness :
    (¬ unguardedShape (some (JSNode.text "t"))) ∧
    (∃ r, getContentElement (some (JSNode.text "t")) = Except.ok r) := by
  have hn : ¬ unguardedShape (some (JSNode.text "t")) := by
    rintro ⟨e, c1, c2, he, h1, h2, h3⟩
    cases Option.some.inj he
    simp [firstChild] at h1
  exact ⟨hn,
    (c10_getContentElement_total_except_unguarded (some (JSNode.text "t"))).2 hn⟩
